import Mathlib

/-!
Verification of the miniature-GPT text-generation notebook
(`examples/generative/ipynb/text_generation_with_miniature_gpt.ipynb`).

The notebook's tensor arithmetic is embedded shallowly: tensors are nested
lists over `ℚ` (exact rational arithmetic in place of float32), token
sequences are `List Nat`, and framework-provided stochastic or
transcendental pieces (dropout, layer normalization, `exp` inside softmax,
the random draw of `np.random.choice`, the trained model itself) are
explicit parameters of the functions that use them, constrained only by
the contracts the framework documents.
-/

/-! ### Causal attention mask (`MultiHeadSelfAttention.causal_attention_mask`)

Source:
```
i = tf.range(n_dest)[:, None]
j = tf.range(n_src)
m = i >= j - n_src + n_dest
return tf.cast(m, dtype)
```
The comparison `i >= j - n_src + n_dest` is in integer arithmetic
(`tf.range` tensors), so it is modelled over `Int`. -/

/-- Matrix of shape `(n_dest, n_src)` with entry `1` when
`i ≥ j - n_src + n_dest` (integer comparison) and `0` otherwise. -/
def causal_attention_mask (n_dest n_src : Nat) : List (List ℚ) :=
  (List.range n_dest).map fun (i : Nat) =>
    (List.range n_src).map fun (j : Nat) =>
      if (j : Int) - (n_src : Int) + (n_dest : Int) ≤ (i : Int) then 1 else 0

/-! ### Scaled dot-product attention scores (`MultiHeadSelfAttention.attention`)

Source:
```
score = tf.matmul(query, key, transpose_b=True)
dim_key = tf.cast(tf.shape(key)[-1], tf.float32)
scaled_score = score / tf.math.sqrt(dim_key)
...
scaled_score = scaled_score * attention_mask - 1e4 * (1 - attention_mask)
```
One attention head is modelled: `query` and `key` are matrices
(rows = positions, columns = head dimension).  `tf.math.sqrt(dim_key)` is
irrational for most head dimensions, so the scalar `sqrtDim` standing for
`sqrt(head_dim)` is a parameter of the embedding. -/

def dotProd (a b : List ℚ) : ℚ := (List.zipWith (· * ·) a b).sum

/-- `QKᵗ`: entry `(i, j)` is the dot product of row `i` of `query` with
row `j` of `key` (`tf.matmul` with `transpose_b=True`). -/
def attnScore (query key : List (List ℚ)) : List (List ℚ) :=
  query.map fun qi => key.map fun kj => dotProd qi kj

/-- `QKᵗ / sqrt(dim_key)`, with `sqrtDim` standing for `sqrt(dim_key)`. -/
def scaledScore (query key : List (List ℚ)) (sqrtDim : ℚ) : List (List ℚ) :=
  (attnScore query key).map fun row => row.map (· / sqrtDim)

/-- The pre-softmax scores after the causal mask is applied:
`scaled_score * attention_mask - 1e4 * (1 - attention_mask)`, with
`n_dest`/`n_src` read off the score matrix shape as in the source. -/
def maskedScore (query key : List (List ℚ)) (sqrtDim : ℚ) : List (List ℚ) :=
  List.zipWith (fun srow mrow => List.zipWith (fun s m => s * m - 10000 * (1 - m)) srow mrow)
    (scaledScore query key sqrtDim)
    (causal_attention_mask query.length key.length)

/-! ### Layer construction (`MultiHeadSelfAttention.__init__`)

Source:
```
if embed_dim % num_heads != 0:
    raise ValueError(
        f"embedding dimension = {embed_dim} should be divisible by number of heads = {num_heads}"
    )
self.projection_dim = embed_dim // num_heads
```
Python's `%` raises `ZeroDivisionError` when the right operand is `0`, so
the embedding distinguishes that outcome from the explicit `ValueError`. -/

inductive InitError where
  | zeroDivisionError : InitError
  | valueError (msg : String) : InitError
  deriving DecidableEq, Repr

/-- Result of constructing the layer: the `projection_dim` on success. -/
def multiHeadSelfAttentionInit (embed_dim num_heads : Nat) : Except InitError Nat :=
  if num_heads = 0 then
    .error .zeroDivisionError
  else if embed_dim % num_heads ≠ 0 then
    .error (.valueError
      s!"embedding dimension = {embed_dim} should be divisible by number of heads = {num_heads}")
  else
    .ok (embed_dim / num_heads)

/-! ### Token and position embedding (`TokenAndPositionEmbedding.call`)

Source:
```
maxlen = tf.shape(x)[-1]
positions = tf.range(start=0, limit=maxlen, delta=1)
positions = self.pos_emb(positions)
x = self.token_emb(x)
return x + positions
```
The two learned lookup tables are parameters (`Nat → List ℚ`); one
sequence of the batch is modelled (the position vector is broadcast-added
identically to every batch row). -/

def vecAdd (a b : List ℚ) : List ℚ := List.zipWith (· + ·) a b

/-- Embedding of a token sequence: elementwise token lookup plus position
lookup for positions `0 .. x.length - 1`. -/
def tokenAndPositionEmbeddingCall (token_emb pos_emb : Nat → List ℚ)
    (x : List Nat) : List (List ℚ) :=
  List.zipWith vecAdd (x.map token_emb) ((List.range x.length).map pos_emb)

/-! ### Corpus preparation (`vectorize_layer` and `prepare_lm_inputs_labels`)

Source:
```
vectorize_layer = TextVectorization(..., output_sequence_length=maxlen + 1)
...
tokenized_sentences = vectorize_layer(text)
x = tokenized_sentences[:, :-1]
y = tokenized_sentences[:, 1:]
```
`vectorizeTokens` models the framework `TextVectorization` layer's
documented output contract for `output_sequence_length = maxlen + 1`: the
token id sequence of a sample is truncated or right-padded with the
padding id `0` to exactly `maxlen + 1` entries. -/

def vectorizeTokens (maxlen : Nat) (tokens : List Nat) : List Nat :=
  tokens.take (maxlen + 1) ++ List.replicate (maxlen + 1 - tokens.length) 0

/-- The training pair: `x = tokenized[:-1]`, `y = tokenized[1:]`. -/
def prepare_lm_inputs_labels (maxlen : Nat) (tokens : List Nat) :
    List Nat × List Nat :=
  let tokenized_sentences := vectorizeTokens maxlen tokens
  (tokenized_sentences.dropLast, tokenized_sentences.drop 1)

/-! ### Generation loop (`TextGenerator.on_epoch_end`)

Source:
```
while num_tokens_generated <= self.max_tokens:
    pad_len = maxlen - len(start_tokens)
    sample_index = len(start_tokens) - 1
    if pad_len < 0:
        x = start_tokens[:maxlen]
        sample_index = maxlen - 1
    elif pad_len > 0:
        x = start_tokens + [0] * pad_len
    else:
        x = start_tokens
    x = np.array([x])
    y, _ = self.model.predict(x)
    sample_token = self.sample_from(y[0][sample_index])
    tokens_generated.append(sample_token)
    start_tokens.append(sample_token)
    num_tokens_generated = len(tokens_generated)
txt = " ".join(
    [self.detokenize(_) for _ in self.start_tokens + tokens_generated]
)
```
The composition `sample_from(model.predict(...))` — trained weights plus
the random draw — is a parameter `oracle` mapping the padded/truncated
model input and the sampled position to the next token.  `pad_len` and
`sample_index` are Python ints, so they are modelled over `Int`. -/

/-- The array `x` fed to the model on an iteration whose accumulated
sequence is `start_tokens`. -/
def buildInput (maxlen : Nat) (start_tokens : List Nat) : List Nat :=
  if (maxlen : Int) - (start_tokens.length : Int) < 0 then
    start_tokens.take maxlen
  else if 0 < (maxlen : Int) - (start_tokens.length : Int) then
    start_tokens ++ List.replicate (maxlen - start_tokens.length) 0
  else
    start_tokens

/-- The position whose logits are sampled on that iteration. -/
def sampleIndex (maxlen : Nat) (start_tokens : List Nat) : Int :=
  if (maxlen : Int) - (start_tokens.length : Int) < 0 then
    (maxlen : Int) - 1
  else
    (start_tokens.length : Int) - 1

/-- The `while` loop of `on_epoch_end`: returns the final
`(start_tokens, tokens_generated)` pair. -/
def genLoop (oracle : List Nat → Int → Nat) (maxlen max_tokens : Nat)
    (start_tokens tokens_generated : List Nat) : List Nat × List Nat :=
  if tokens_generated.length ≤ max_tokens then
    genLoop oracle maxlen max_tokens
      (start_tokens ++ [oracle (buildInput maxlen start_tokens) (sampleIndex maxlen start_tokens)])
      (tokens_generated ++ [oracle (buildInput maxlen start_tokens) (sampleIndex maxlen start_tokens)])
  else
    (start_tokens, tokens_generated)
termination_by max_tokens + 1 - tokens_generated.length
decreasing_by simp only [List.length_append, List.length_cons, List.length_nil]; omega

/-- The list of words joined (with single spaces) into the printed
`generated text` line: `self.start_tokens + tokens_generated`,
detokenized. -/
def onEpochEndWords (oracle : List Nat → Int → Nat) (maxlen max_tokens : Nat)
    (start_tokens : List Nat) (index_to_word : Nat → String) : List String :=
  (start_tokens ++ (genLoop oracle maxlen max_tokens start_tokens []).2).map index_to_word

/-! ### Vocabulary lookup (`word_to_index`, `TextGenerator.detokenize`)

Source:
```
word_to_index = {}
for index, word in enumerate(vocab):
    word_to_index[word] = index
...
start_tokens = [word_to_index.get(_, 1) for _ in start_prompt.split()]
...
def detokenize(self, number):
    return self.index_to_word[number]
```
The Python dict is modelled as an association list where each assignment
prepends its binding and lookup takes the first match, so the lookup
returns the most recent assignment, as a dict does. -/

/-- Lookup in the association-list model of a dict: first (most recent)
binding wins. -/
def dictGet : List (String × Nat) → String → Option Nat
  | [], _ => none
  | (k, v) :: d, w => if w = k then some v else dictGet d w

/-- The `word_to_index` dict built by the enumeration loop. -/
def word_to_index (vocab : List String) : List (String × Nat) :=
  vocab.enum.foldl (fun d p => (p.2, p.1) :: d) []

/-- `word_to_index.get(word, 1)`: the reserved unknown index `1` when the
word is absent. -/
def tokenizeWord (vocab : List String) (w : String) : Nat :=
  (dictGet (word_to_index vocab) w).getD 1

/-- `self.index_to_word[number]` (in-range list indexing). -/
def detokenize (vocab : List String) (number : Nat) : String :=
  vocab.getD number ""

/-! ### Top-k sampling (`TextGenerator.sample_from`)

Source:
```
def sample_from(self, logits):
    logits, indices = tf.math.top_k(logits, k=self.k, sorted=True)
    indices = np.asarray(indices).astype("int32")
    preds = keras.activations.softmax(tf.expand_dims(logits, 0))[0]
    preds = np.asarray(preds).astype("float32")
    return np.random.choice(indices, p=preds)
```
`tf.math.top_k` returns the `k` largest entries sorted by value
descending, breaking ties in favour of the lower index; it is modelled by
a stable merge sort on the enumerated logits.  Softmax needs `exp`, which
is not rational, so the positive weighting function `e` standing for
`exp` is a parameter.  `np.random.choice(indices, p=preds)` returns
`indices[r]` where the draw `r` falls on slot `r` with probability
`preds[r]`; the draw is a parameter and `sample_from` returns the chosen
token index together with the probability the softmax distribution
assigns to that draw. -/

/-- The `(index, value)` pairs kept by `tf.math.top_k(logits, k)`:
sorted by value descending (stable, so equal values keep the lower index
first), truncated to `k`. -/
def topK (logits : List ℚ) (k : Nat) : List (Nat × ℚ) :=
  (logits.enum.mergeSort fun a b => decide (b.2 ≤ a.2)).take k

/-- Softmax over a score list, with `e` standing for `exp`. -/
def softmaxWith (e : ℚ → ℚ) (xs : List ℚ) : List ℚ :=
  xs.map fun x => e x / (xs.map e).sum

/-- `sample_from` for draw `r`: the token index returned by
`np.random.choice` and the probability `preds[r]` with which that slot is
drawn. -/
def sample_from (e : ℚ → ℚ) (k : Nat) (logits : List ℚ) (r : Nat) : Nat × ℚ :=
  (((topK logits k).getD r (0, 0)).1,
    (softmaxWith e ((topK logits k).map Prod.snd)).getD r 0)

/-! ### Transformer block (`TransformerBlock`)

Source:
```
self.ffn = keras.Sequential(
    [layers.Dense(ff_dim, activation="relu"), layers.Dense(embed_dim),]
)
...
def call(self, inputs):
    attention_output = self.att(inputs)
    attention_output = self.dropout1(attention_output)
    out1 = self.layernorm1(inputs + attention_output)
    ffn_output = self.ffn(out1)
    ffn_output = self.dropout2(ffn_output)
    return self.layernorm2(out1 + ffn_output)
```
A tensor of shape `(batch, seq_len, embed_dim)` is a triple-nested list.
The feed-forward sublayer is concrete (two dense projections with a ReLU
between, applied per position).  The attention sublayer, the two dropout
layers (stochastic) and the two independent layer normalizations
(irrational square root) are parameters constrained by their
shape-preservation contracts. -/

def relu (q : ℚ) : ℚ := max q 0

/-- One `Dense` layer applied to one position vector:
`y[j] = sum_i x[i] * W[i][j] + b[j]`, output width `b.length`. -/
def denseRow (W : List (List ℚ)) (b : List ℚ) (x : List ℚ) : List ℚ :=
  (List.range b.length).map fun j =>
    (List.zipWith (fun xi Wi => xi * Wi.getD j 0) x W).sum + b.getD j 0

/-- The `ffn` sequential sublayer on one position vector:
dense expansion with ReLU activation, then dense projection back. -/
def ffnRow (W1 : List (List ℚ)) (b1 : List ℚ) (W2 : List (List ℚ)) (b2 : List ℚ)
    (x : List ℚ) : List ℚ :=
  denseRow W2 b2 ((denseRow W1 b1 x).map relu)

/-- Apply a per-position function across a `(batch, seq, dim)` tensor. -/
def mapRows (f : List ℚ → List ℚ) (t : List (List (List ℚ))) : List (List (List ℚ)) :=
  t.map fun m => m.map f

/-- Elementwise tensor addition (the residual `+`). -/
def tensorAdd (a b : List (List (List ℚ))) : List (List (List ℚ)) :=
  List.zipWith (fun ma mb => List.zipWith vecAdd ma mb) a b

/-- Shape predicate for a `(seq, dim)` matrix. -/
def MatShape (m : List (List ℚ)) (seq dim : Nat) : Prop :=
  m.length = seq ∧ ∀ v ∈ m, v.length = dim

/-- Shape predicate for a `(batch, seq, dim)` tensor. -/
def HasShape (t : List (List (List ℚ))) (batch seq dim : Nat) : Prop :=
  t.length = batch ∧ ∀ m ∈ t, MatShape m seq dim

/-- `TransformerBlock.call`: attention, dropout, residual add with the
input, first layer norm, feed-forward, dropout, residual add, second
layer norm. -/
def transformerBlockCall
    (att dropout1 dropout2 : List (List (List ℚ)) → List (List (List ℚ)))
    (ln1 ln2 : List ℚ → List ℚ)
    (W1 : List (List ℚ)) (b1 : List ℚ) (W2 : List (List ℚ)) (b2 : List ℚ)
    (inputs : List (List (List ℚ))) : List (List (List ℚ)) :=
  let attention_output := dropout1 (att inputs)
  let out1 := mapRows ln1 (tensorAdd inputs attention_output)
  let ffn_output := dropout2 (mapRows (ffnRow W1 b1 W2 b2) out1)
  mapRows ln2 (tensorAdd out1 ffn_output)

/-! ## Theorems -/

/-- Claim C2: for all `n_dest`, `n_src`, the causal mask has shape
`(n_dest, n_src)`; its entry at `(i, j)` is `1` exactly when
`j - n_src + n_dest ≤ i` and `0` otherwise; and the generator is pure and
deterministic (repeated calls with the same arguments give the same
matrix). -/
theorem causal_attention_mask_spec (n_dest n_src i j : Nat)
    (hi : i < n_dest) (hj : j < n_src) :
    (causal_attention_mask n_dest n_src).length = n_dest ∧
    (∀ row ∈ causal_attention_mask n_dest n_src, row.length = n_src) ∧
    (((causal_attention_mask n_dest n_src).getD i []).getD j 0 = 1 ↔
      (j : Int) - (n_src : Int) + (n_dest : Int) ≤ (i : Int)) ∧
    (((causal_attention_mask n_dest n_src).getD i []).getD j 0 = 0 ↔
      ¬ ((j : Int) - (n_src : Int) + (n_dest : Int) ≤ (i : Int))) ∧
    causal_attention_mask n_dest n_src = causal_attention_mask n_dest n_src := by
  have hentry : ((causal_attention_mask n_dest n_src).getD i []).getD j 0 =
      if (j : Int) - (n_src : Int) + (n_dest : Int) ≤ (i : Int) then 1 else 0 := by
    simp [causal_attention_mask, List.getD_eq_getElem?_getD, List.getElem?_map,
      List.getElem?_range hi, List.getElem?_range hj]
  refine ⟨by simp [causal_attention_mask], ?_, ?_, ?_, rfl⟩
  · intro row hrow
    simp only [causal_attention_mask, List.mem_map] at hrow
    obtain ⟨a, -, rfl⟩ := hrow
    simp
  all_goals
    rw [hentry]
    by_cases h : (j : Int) - (n_src : Int) + (n_dest : Int) ≤ (i : Int) <;>
      simp [h]

/-- Concrete instance of `causal_attention_mask_spec` at
`n_dest = 3`, `n_src = 5`, `i = 1`, `j = 2`. -/
theorem causal_attention_mask_spec_witness :
    (causal_attention_mask 3 5).length = 3 ∧
    (∀ row ∈ causal_attention_mask 3 5, row.length = 5) ∧
    (((causal_attention_mask 3 5).getD 1 []).getD 2 0 = 1 ↔
      (2 : Int) - (5 : Int) + (3 : Int) ≤ (1 : Int)) ∧
    (((causal_attention_mask 3 5).getD 1 []).getD 2 0 = 0 ↔
      ¬ ((2 : Int) - (5 : Int) + (3 : Int) ≤ (1 : Int))) ∧
    causal_attention_mask 3 5 = causal_attention_mask 3 5 :=
  causal_attention_mask_spec 3 5 1 2 (by decide) (by decide)

/-- Claim C3: after masking, the pre-softmax score at a masked (future)
position `(i, j)` — one with `i + n_src < j + n_dest` — equals the large
negative constant `-1e4` (the additive penalty term `- 1e4 * (1 - mask)`
with the multiplicative part zeroed), while at an unmasked position it
equals `dot(Qᵢ, Kⱼ) / sqrt(dim_key)` unchanged. -/
theorem maskedScore_spec (query key : List (List ℚ)) (sqrtDim : ℚ) (i j : Nat)
    (hi : i < query.length) (hj : j < key.length) :
    ((j : Int) - (key.length : Int) + (query.length : Int) ≤ (i : Int) →
      ((maskedScore query key sqrtDim).getD i []).getD j 0 =
        dotProd (query.getD i []) (key.getD j []) / sqrtDim) ∧
    (¬ ((j : Int) - (key.length : Int) + (query.length : Int) ≤ (i : Int)) →
      ((maskedScore query key sqrtDim).getD i []).getD j 0 = -10000) := by
  obtain ⟨qi, hq⟩ : ∃ qi, query[i]? = some qi := ⟨_, List.getElem?_eq_getElem hi⟩
  obtain ⟨kj, hk⟩ : ∃ kj, key[j]? = some kj := ⟨_, List.getElem?_eq_getElem hj⟩
  have hqD : query.getD i [] = qi := by
    rw [List.getD_eq_getElem?_getD, hq, Option.getD_some]
  have hkD : key.getD j [] = kj := by
    rw [List.getD_eq_getElem?_getD, hk, Option.getD_some]
  have hsrow : (scaledScore query key sqrtDim)[i]? =
      some ((key.map fun k2 => dotProd qi k2).map (· / sqrtDim)) := by
    simp [scaledScore, attnScore, hq]
  have hsval : ((key.map fun k2 => dotProd qi k2).map (· / sqrtDim))[j]? =
      some (dotProd qi kj / sqrtDim) := by
    simp [hk]
  have hmrow : (causal_attention_mask query.length key.length)[i]? =
      some ((List.range key.length).map fun (j : Nat) =>
        if (j : Int) - (key.length : Int) + (query.length : Int) ≤ (i : Int)
        then (1 : ℚ) else 0) := by
    simp [causal_attention_mask, List.getElem?_range hi]
  have hmval : ((List.range key.length).map fun (j : Nat) =>
      if (j : Int) - (key.length : Int) + (query.length : Int) ≤ (i : Int)
      then (1 : ℚ) else 0)[j]? =
      some (if (j : Int) - (key.length : Int) + (query.length : Int) ≤ (i : Int)
        then (1 : ℚ) else 0) := by
    simp [List.getElem?_range hj]
  have hrow : (maskedScore query key sqrtDim)[i]? =
      some (List.zipWith (fun s m => s * m - 10000 * (1 - m))
        ((key.map fun k2 => dotProd qi k2).map (· / sqrtDim))
        ((List.range key.length).map fun (j : Nat) =>
          if (j : Int) - (key.length : Int) + (query.length : Int) ≤ (i : Int)
          then (1 : ℚ) else 0)) := by
    rw [maskedScore, List.getElem?_zipWith, hsrow, hmrow]
  have hentry : ((maskedScore query key sqrtDim).getD i []).getD j 0 =
      dotProd qi kj / sqrtDim *
        (if (j : Int) - (key.length : Int) + (query.length : Int) ≤ (i : Int)
          then (1 : ℚ) else 0) -
      10000 * (1 - (if (j : Int) - (key.length : Int) + (query.length : Int) ≤ (i : Int)
          then (1 : ℚ) else 0)) := by
    rw [List.getD_eq_getElem?_getD, List.getD_eq_getElem?_getD, hrow,
      Option.getD_some, List.getElem?_zipWith, hsval, hmval]
    rfl
  rw [hqD, hkD]
  constructor
  · intro h
    rw [hentry, if_pos h]
    ring
  · intro h
    rw [hentry, if_neg h]
    ring

/-- Concrete instance of `maskedScore_spec` for a 2-position sequence with
1-dimensional heads: position `(0, 1)` is masked, position `(1, 0)` is
not. -/
theorem maskedScore_spec_witness :
    (((1 : Int) - (2 : Int) + (2 : Int) ≤ (0 : Int) →
      ((maskedScore [[1], [2]] [[3], [5]] 1).getD 0 []).getD 1 0 =
        dotProd ([[1], [2]].getD 0 []) ([[3], [5]].getD 1 []) / 1) ∧
    (¬ ((1 : Int) - (2 : Int) + (2 : Int) ≤ (0 : Int)) →
      ((maskedScore [[1], [2]] [[3], [5]] 1).getD 0 []).getD 1 0 = -10000)) :=
  maskedScore_spec [[1], [2]] [[3], [5]] 1 0 1 (by decide) (by decide)

/-- Claim C4, counterexample: the claim quantifies over every pair with
`num_heads ∣ embed_dim`; at `embed_dim = 0`, `num_heads = 0` divisibility
holds, yet construction does not succeed — Python's `%` raises
`ZeroDivisionError` — so the construction result is an error, not
`projection_dim = 0 / 0`. -/
theorem multiHeadSelfAttentionInit_zero_heads :
    (0 : Nat) ∣ 0 ∧
    multiHeadSelfAttentionInit 0 0 = .error .zeroDivisionError := by
  constructor
  · decide
  · rfl

/-- Claim C4, amended to positive head counts: for `0 < num_heads`,
construction fails with the descriptive `ValueError` exactly when
`embed_dim` is not divisible by `num_heads`, and succeeds with
`projection_dim = embed_dim / num_heads` when it is. -/
theorem multiHeadSelfAttentionInit_spec (embed_dim num_heads : Nat)
    (hpos : 0 < num_heads) :
    (¬ num_heads ∣ embed_dim →
      multiHeadSelfAttentionInit embed_dim num_heads = .error (.valueError
        s!"embedding dimension = {embed_dim} should be divisible by number of heads = {num_heads}")) ∧
    (num_heads ∣ embed_dim →
      multiHeadSelfAttentionInit embed_dim num_heads = .ok (embed_dim / num_heads)) := by
  have hne : num_heads ≠ 0 := Nat.pos_iff_ne_zero.mp hpos
  constructor
  · intro hndvd
    have hmod : embed_dim % num_heads ≠ 0 := fun h =>
      hndvd (Nat.dvd_of_mod_eq_zero h)
    simp [multiHeadSelfAttentionInit, hne, hmod]
  · intro hdvd
    have hmod : embed_dim % num_heads = 0 := Nat.mod_eq_zero_of_dvd hdvd
    simp [multiHeadSelfAttentionInit, hne, hmod]

/-- Concrete instances of `multiHeadSelfAttentionInit_spec`: the
notebook's configuration `embed_dim = 256`, `num_heads = 2` succeeds with
per-head dimension `128`, and `embed_dim = 256`, `num_heads = 3` fails
with the descriptive message. -/
theorem multiHeadSelfAttentionInit_spec_witness :
    multiHeadSelfAttentionInit 256 2 = .ok 128 ∧
    multiHeadSelfAttentionInit 256 3 = .error (.valueError
      "embedding dimension = 256 should be divisible by number of heads = 3") := by
  constructor
  · exact (multiHeadSelfAttentionInit_spec 256 2 (by decide)).2 (by decide)
  · exact (multiHeadSelfAttentionInit_spec 256 3 (by decide)).1 (by decide)

/-- Claim C6: the embedding output at position `p` is exactly
`token_embedding_lookup(x[p]) + position_embedding_lookup(p)`, and hence
for two inputs that agree at position `p` the outputs at position `p`
coincide, whatever the tokens at the other positions are. -/
theorem tokenAndPositionEmbedding_pointwise (token_emb pos_emb : Nat → List ℚ)
    (x x' : List Nat) (p : Nat) (hp : p < x.length) :
    (tokenAndPositionEmbeddingCall token_emb pos_emb x)[p]? =
      some (vecAdd (token_emb (x.getD p 0)) (pos_emb p)) ∧
    (p < x'.length → x.getD p 0 = x'.getD p 0 →
      (tokenAndPositionEmbeddingCall token_emb pos_emb x)[p]? =
        (tokenAndPositionEmbeddingCall token_emb pos_emb x')[p]?) := by
  have hmain : ∀ y : List Nat, p < y.length →
      (tokenAndPositionEmbeddingCall token_emb pos_emb y)[p]? =
        some (vecAdd (token_emb (y.getD p 0)) (pos_emb p)) := by
    intro y hpy
    obtain ⟨t, ht⟩ : ∃ t, y[p]? = some t := ⟨_, List.getElem?_eq_getElem hpy⟩
    have htD : y.getD p 0 = t := by
      rw [List.getD_eq_getElem?_getD, ht, Option.getD_some]
    have h1 : (y.map token_emb)[p]? = some (token_emb t) := by
      simp [ht]
    have h2 : ((List.range y.length).map pos_emb)[p]? = some (pos_emb p) := by
      simp [List.getElem?_range hpy]
    rw [tokenAndPositionEmbeddingCall, List.getElem?_zipWith, h1, h2, htD]
  refine ⟨hmain x hp, fun hp' heq => ?_⟩
  rw [hmain x hp, hmain x' hp', heq]

/-- Concrete instance of `tokenAndPositionEmbedding_pointwise` at `p = 1`
for the inputs `[3, 4, 5]` and `[9, 4]`, which agree at position 1. -/
theorem tokenAndPositionEmbedding_pointwise_witness :
    (tokenAndPositionEmbeddingCall (fun t => [(t : ℚ)]) (fun p => [(p : ℚ) + 100]) [3, 4, 5])[1]? =
      some (vecAdd ((fun (t : Nat) => [(t : ℚ)]) ([3, 4, 5].getD 1 0))
        ((fun (p : Nat) => [(p : ℚ) + 100]) 1)) ∧
    (1 < [9, 4].length → [3, 4, 5].getD 1 0 = [9, 4].getD 1 0 →
      (tokenAndPositionEmbeddingCall (fun t => [(t : ℚ)]) (fun p => [(p : ℚ) + 100]) [3, 4, 5])[1]? =
        (tokenAndPositionEmbeddingCall (fun t => [(t : ℚ)]) (fun p => [(p : ℚ) + 100]) [9, 4])[1]?) :=
  tokenAndPositionEmbedding_pointwise (fun t => [(t : ℚ)]) (fun p => [(p : ℚ) + 100])
    [3, 4, 5] [9, 4] 1 (by decide)

/-- Claim C7: the tokenized sample has fixed length `maxlen + 1`
(truncated or zero-padded); the training pair satisfies
`x.length = y.length = maxlen`, `y[i] = tokens[i+1]` for `i < maxlen`,
and `y[i] = x[i+1]` whenever `i + 1 < maxlen` — the label is the input
shifted one position. -/
theorem prepare_lm_inputs_labels_spec (maxlen : Nat) (tokens : List Nat)
    (i : Nat) (hi : i < maxlen) :
    (vectorizeTokens maxlen tokens).length = maxlen + 1 ∧
    (prepare_lm_inputs_labels maxlen tokens).1.length = maxlen ∧
    (prepare_lm_inputs_labels maxlen tokens).2.length = maxlen ∧
    (prepare_lm_inputs_labels maxlen tokens).2[i]? = (vectorizeTokens maxlen tokens)[i + 1]? ∧
    (i + 1 < maxlen →
      (prepare_lm_inputs_labels maxlen tokens).2[i]? =
        (prepare_lm_inputs_labels maxlen tokens).1[i + 1]?) := by
  have hlen : (vectorizeTokens maxlen tokens).length = maxlen + 1 := by
    simp only [vectorizeTokens, List.length_append, List.length_take, List.length_replicate]
    omega
  have hx : (prepare_lm_inputs_labels maxlen tokens).1 =
      (vectorizeTokens maxlen tokens).take maxlen := by
    simp only [prepare_lm_inputs_labels, List.dropLast_eq_take, hlen]
    norm_num
  have hxlen : (prepare_lm_inputs_labels maxlen tokens).1.length = maxlen := by
    rw [hx, List.length_take, hlen]
    omega
  have hylen : (prepare_lm_inputs_labels maxlen tokens).2.length = maxlen := by
    simp only [prepare_lm_inputs_labels, List.length_drop, hlen]
    omega
  have hyi : (prepare_lm_inputs_labels maxlen tokens).2[i]? =
      (vectorizeTokens maxlen tokens)[i + 1]? := by
    simp only [prepare_lm_inputs_labels, List.getElem?_drop]
    rw [Nat.add_comm]
  refine ⟨hlen, hxlen, hylen, hyi, fun hi1 => ?_⟩
  rw [hyi, hx, List.getElem?_take_of_lt hi1]

/-- Concrete instance of `prepare_lm_inputs_labels_spec` at `maxlen = 2`,
a 5-token sample (truncated) and `i = 0`. -/
theorem prepare_lm_inputs_labels_spec_witness :
    (vectorizeTokens 2 [7, 8, 9, 10, 11]).length = 2 + 1 ∧
    (prepare_lm_inputs_labels 2 [7, 8, 9, 10, 11]).1.length = 2 ∧
    (prepare_lm_inputs_labels 2 [7, 8, 9, 10, 11]).2.length = 2 ∧
    (prepare_lm_inputs_labels 2 [7, 8, 9, 10, 11]).2[0]? = (vectorizeTokens 2 [7, 8, 9, 10, 11])[0 + 1]? ∧
    (0 + 1 < 2 →
      (prepare_lm_inputs_labels 2 [7, 8, 9, 10, 11]).2[0]? =
        (prepare_lm_inputs_labels 2 [7, 8, 9, 10, 11]).1[0 + 1]?) :=
  prepare_lm_inputs_labels_spec 2 [7, 8, 9, 10, 11] 0 (by decide)

/-- Claim C10: every model input has length exactly `maxlen`; the input
depends only on the first `maxlen` accumulated tokens (so tokens appended
at positions `≥ maxlen` never appear in any later model input); and once
the accumulated list exceeds `maxlen` the input is the first `maxlen`
tokens with the sampled position fixed at `maxlen - 1`. -/
theorem buildInput_invariant (maxlen : Nat) (start_tokens : List Nat) :
    (buildInput maxlen start_tokens).length = maxlen ∧
    buildInput maxlen start_tokens = buildInput maxlen (start_tokens.take maxlen) ∧
    (maxlen < start_tokens.length →
      buildInput maxlen start_tokens = start_tokens.take maxlen ∧
      sampleIndex maxlen start_tokens = (maxlen : Int) - 1) := by
  rcases Nat.lt_trichotomy maxlen start_tokens.length with hlt | heq | hgt
  · have hneg : (maxlen : Int) - (start_tokens.length : Int) < 0 := by omega
    have htrunc : buildInput maxlen start_tokens = start_tokens.take maxlen := by
      rw [buildInput, if_pos hneg]
    have htklen : (start_tokens.take maxlen).length = maxlen := by
      rw [List.length_take]
      omega
    have hb2 : buildInput maxlen (start_tokens.take maxlen) = start_tokens.take maxlen := by
      rw [buildInput, htklen, if_neg (by omega), if_neg (by omega)]
    exact ⟨by rw [htrunc, htklen], by rw [htrunc, hb2],
      fun _ => ⟨htrunc, by rw [sampleIndex, if_pos hneg]⟩⟩
  · have htk : start_tokens.take maxlen = start_tokens :=
      List.take_of_length_le (by omega)
    have hb : buildInput maxlen start_tokens = start_tokens := by
      rw [buildInput, if_neg (by omega), if_neg (by omega)]
    exact ⟨by rw [hb]; omega, by rw [htk], fun h => absurd h (by omega)⟩
  · have hp : 0 < (maxlen : Int) - (start_tokens.length : Int) := by omega
    have htk : start_tokens.take maxlen = start_tokens :=
      List.take_of_length_le (by omega)
    have hb : buildInput maxlen start_tokens =
        start_tokens ++ List.replicate (maxlen - start_tokens.length) 0 := by
      rw [buildInput, if_neg (by omega), if_pos hp]
    refine ⟨?_, by rw [htk], fun h => absurd h (by omega)⟩
    rw [hb]
    simp only [List.length_append, List.length_replicate]
    omega

/-- Concrete instance of `buildInput_invariant` at `maxlen = 3` and a
5-token accumulated sequence. -/
theorem buildInput_invariant_witness :
    (buildInput 3 [5, 6, 7, 8, 9]).length = 3 ∧
    buildInput 3 [5, 6, 7, 8, 9] = buildInput 3 ([5, 6, 7, 8, 9].take 3) ∧
    (3 < [5, 6, 7, 8, 9].length →
      buildInput 3 [5, 6, 7, 8, 9] = [5, 6, 7, 8, 9].take 3 ∧
      sampleIndex 3 [5, 6, 7, 8, 9] = (3 : Int) - 1) :=
  buildInput_invariant 3 [5, 6, 7, 8, 9]

/-- The loop exits with `tokens_generated` grown from `n` to
`max_tokens + 1` elements: auxiliary induction on the remaining
iteration count. -/
theorem genLoop_length_aux (oracle : List Nat → Int → Nat) (maxlen max_tokens : Nat) :
    ∀ (n : Nat) (start_tokens tokens_generated : List Nat),
      max_tokens + 1 - tokens_generated.length = n →
      (genLoop oracle maxlen max_tokens start_tokens tokens_generated).2.length =
        tokens_generated.length + n := by
  intro n
  induction n with
  | zero =>
    intro start_tokens tokens_generated h
    rw [genLoop, if_neg (by omega)]
    rfl
  | succ n ih =>
    intro start_tokens tokens_generated h
    rw [genLoop, if_pos (by omega)]
    have := ih (start_tokens ++ [oracle (buildInput maxlen start_tokens) (sampleIndex maxlen start_tokens)])
      (tokens_generated ++ [oracle (buildInput maxlen start_tokens) (sampleIndex maxlen start_tokens)])
      (by simp only [List.length_append, List.length_cons, List.length_nil]; omega)
    rw [this]
    simp only [List.length_append, List.length_cons, List.length_nil]
    omega

/-- Claim C1: the generation loop in `TextGenerator.on_epoch_end`
produces `max_tokens + 1` tokens after the prompt — one more than the
caller-specified `max_tokens` — so the printed text has
`len(prompt) + max_tokens + 1` space-separated tokens; for a 3-token
prompt and `max_tokens = 5` that is 9 words, not the 8 the claim (and the
callback's own docstring) state. -/
theorem on_epoch_end_token_count (oracle : List Nat → Int → Nat)
    (maxlen max_tokens : Nat) (start_tokens : List Nat) (index_to_word : Nat → String) :
    (genLoop oracle maxlen max_tokens start_tokens []).2.length = max_tokens + 1 ∧
    (onEpochEndWords oracle maxlen max_tokens start_tokens index_to_word).length =
      start_tokens.length + (max_tokens + 1) ∧
    (onEpochEndWords oracle 100 5 [2, 3, 4] index_to_word).length = 9 := by
  have hgen : ∀ (m maxl : Nat) (s : List Nat),
      (genLoop oracle maxl m s []).2.length = m + 1 := by
    intro m maxl s
    have := genLoop_length_aux oracle maxl m (m + 1) s [] (by simp)
    simpa using this
  refine ⟨hgen max_tokens maxlen start_tokens, ?_, ?_⟩
  · simp only [onEpochEndWords, List.length_map, List.length_append]
    rw [hgen max_tokens maxlen start_tokens]
  · simp only [onEpochEndWords, List.length_map, List.length_append]
    rw [hgen 5 100 [2, 3, 4]]
    rfl

/-- If lookup in the dict accumulated over `l` finds `i` for `w`, then
either `(i, w)` is an entry of `l` or the initial dict already bound it. -/
theorem dictGet_foldl_some (w : String) :
    ∀ (l : List (Nat × String)) (d : List (String × Nat)) (i : Nat),
      dictGet (l.foldl (fun d p => (p.2, p.1) :: d) d) w = some i →
      (i, w) ∈ l ∨ dictGet d w = some i := by
  intro l
  induction l with
  | nil =>
    intro d i h
    exact Or.inr h
  | cons p l ih =>
    intro d i h
    rcases ih ((p.2, p.1) :: d) i h with hmem | hd
    · exact Or.inl (List.mem_cons_of_mem p hmem)
    · by_cases hw : w = p.2
      · rw [dictGet, if_pos hw] at hd
        left
        obtain rfl : p.1 = i := Option.some.inj hd
        rw [hw]
        exact List.mem_cons_self p l
      · rw [dictGet, if_neg hw] at hd
        exact Or.inr hd

/-- If lookup in the accumulated dict finds nothing for `w`, then no
entry of `l` carries `w` and the initial dict had no binding either. -/
theorem dictGet_foldl_none (w : String) :
    ∀ (l : List (Nat × String)) (d : List (String × Nat)),
      dictGet (l.foldl (fun d p => (p.2, p.1) :: d) d) w = none →
      (∀ i : Nat, (i, w) ∉ l) ∧ dictGet d w = none := by
  intro l
  induction l with
  | nil =>
    intro d h
    exact ⟨fun i hi => absurd hi (List.not_mem_nil _), h⟩
  | cons p l ih =>
    intro d h
    obtain ⟨hnl, hd⟩ := ih ((p.2, p.1) :: d) h
    by_cases hw : w = p.2
    · rw [dictGet, if_pos hw] at hd
      exact absurd hd (by simp)
    · rw [dictGet, if_neg hw] at hd
      refine ⟨fun i hi => ?_, hd⟩
      rcases List.mem_cons.mp hi with hhead | htail
      · exact hw (congrArg Prod.snd hhead)
      · exact hnl i htail

/-- Claim C9: for every word in the vocabulary,
`detokenize (tokenizeWord word)` recovers the word, and every word absent
from the vocabulary tokenizes to the reserved unknown index `1`. -/
theorem tokenize_detokenize_round_trip (vocab : List String) (w : String) :
    (w ∈ vocab → detokenize vocab (tokenizeWord vocab w) = w) ∧
    (w ∉ vocab → tokenizeWord vocab w = 1) := by
  constructor
  · intro hmem
    cases hdg : dictGet (word_to_index vocab) w with
    | none =>
      exfalso
      obtain ⟨i, hi⟩ := List.mem_iff_getElem?.mp hmem
      have := (dictGet_foldl_none w vocab.enum [] hdg).1 i
      exact this (List.mk_mem_enum_iff_getElem?.mpr hi)
    | some i =>
      have hin : (i, w) ∈ vocab.enum := by
        rcases dictGet_foldl_some w vocab.enum [] i hdg with h | h
        · exact h
        · exact absurd h (by rw [dictGet]; simp)
      have hget : vocab[i]? = some w := List.mk_mem_enum_iff_getElem?.mp hin
      rw [tokenizeWord, hdg, Option.getD_some, detokenize,
        List.getD_eq_getElem?_getD, hget, Option.getD_some]
  · intro hnmem
    cases hdg : dictGet (word_to_index vocab) w with
    | none =>
      rw [tokenizeWord, hdg, Option.getD_none]
    | some i =>
      exfalso
      have hin : (i, w) ∈ vocab.enum := by
        rcases dictGet_foldl_some w vocab.enum [] i hdg with h | h
        · exact h
        · exact absurd h (by rw [dictGet]; simp)
      exact hnmem (List.mem_iff_getElem?.mpr
        ⟨i, List.mk_mem_enum_iff_getElem?.mp hin⟩)

/-- Concrete instance of `tokenize_detokenize_round_trip` on a small
vocabulary: `"movie"` round-trips, `"zebra"` goes to the unknown
index 1. -/
theorem tokenize_detokenize_round_trip_witness :
    detokenize ["", "[UNK]", "the", "movie", "is"]
      (tokenizeWord ["", "[UNK]", "the", "movie", "is"] "movie") = "movie" ∧
    tokenizeWord ["", "[UNK]", "the", "movie", "is"] "zebra" = 1 :=
  ⟨(tokenize_detokenize_round_trip ["", "[UNK]", "the", "movie", "is"] "movie").1 (by decide),
   (tokenize_detokenize_round_trip ["", "[UNK]", "the", "movie", "is"] "zebra").2 (by decide)⟩

/-- Claim C8: for every logits vector, the token returned by
`sample_from` with `top_k = k` is among the `k` highest-logit tokens —
its logit value dominates the logit of every position not selected by
`topK` — and the draw that returns it is taken with probability equal to
the softmax distribution over just those `k` top logits. -/
theorem sample_from_top_k (e : ℚ → ℚ) (logits : List ℚ) (k r : Nat)
    (hk : k ≤ logits.length) (hr : r < k) :
    ((sample_from e k logits r).1, ((topK logits k).getD r (0, 0)).2) ∈ topK logits k ∧
    logits[(sample_from e k logits r).1]? = some (((topK logits k).getD r (0, 0)).2) ∧
    (∀ j w, logits[j]? = some w → (j, w) ∉ topK logits k →
      w ≤ ((topK logits k).getD r (0, 0)).2) ∧
    (sample_from e k logits r).2 =
      e (((topK logits k).getD r (0, 0)).2) /
        (((topK logits k).map Prod.snd).map e).sum := by
  have htrans : ∀ a b c : Nat × ℚ,
      decide (b.2 ≤ a.2) = true → decide (c.2 ≤ b.2) = true →
      decide (c.2 ≤ a.2) = true := by
    intro a b c hab hbc
    rw [decide_eq_true_eq] at *
    exact le_trans hbc hab
  have htotal : ∀ a b : Nat × ℚ, (decide (b.2 ≤ a.2) || decide (a.2 ≤ b.2)) = true := by
    intro a b
    rcases le_total b.2 a.2 with h | h <;> simp [h]
  have hperm : List.Perm (logits.enum.mergeSort fun a b => decide (b.2 ≤ a.2)) logits.enum :=
    List.mergeSort_perm logits.enum _
  have hslen : (logits.enum.mergeSort fun a b => decide (b.2 ≤ a.2)).length = logits.length := by
    rw [hperm.length_eq, List.enum_length]
  have hklen : (topK logits k).length = k := by
    rw [topK, List.length_take, hslen]
    omega
  obtain ⟨p, hp⟩ : ∃ p, (topK logits k)[r]? = some p :=
    ⟨_, List.getElem?_eq_getElem (by rw [hklen]; exact hr)⟩
  have hpD : (topK logits k).getD r (0, 0) = p := by
    rw [List.getD_eq_getElem?_getD, hp, Option.getD_some]
  have hpmem : p ∈ topK logits k := List.getElem?_mem hp
  have hpmems : p ∈ (logits.enum.mergeSort fun a b => decide (b.2 ≤ a.2)) :=
    List.take_subset k _ hpmem
  have hpget : logits[p.1]? = some p.2 :=
    List.mem_enum_iff_getElem?.mp (hperm.subset hpmems)
  have hfst : (sample_from e k logits r).1 = p.1 := by
    rw [sample_from, hpD]
  have hsorted := List.sorted_mergeSort htrans htotal logits.enum
  have hsplit : ∀ a ∈ (logits.enum.mergeSort fun a b => decide (b.2 ≤ a.2)).take k,
      ∀ b ∈ (logits.enum.mergeSort fun a b => decide (b.2 ≤ a.2)).drop k,
      b.2 ≤ a.2 := by
    have happ : List.Pairwise (fun a b => decide (b.2 ≤ a.2) = true)
        ((logits.enum.mergeSort fun a b => decide (b.2 ≤ a.2)).take k ++
          (logits.enum.mergeSort fun a b => decide (b.2 ≤ a.2)).drop k) := by
      rw [List.take_append_drop]
      exact hsorted
    have h2 := (List.pairwise_append.mp happ).2.2
    intro a ha b hb
    exact of_decide_eq_true (h2 a ha b hb)
  refine ⟨?_, ?_, ?_, ?_⟩
  · rw [hfst, hpD]
    simpa using hpmem
  · rw [hfst, hpD]
    exact hpget
  · intro j w hjw hnot
    rw [hpD]
    have hjs : (j, w) ∈ (logits.enum.mergeSort fun a b => decide (b.2 ≤ a.2)) :=
      hperm.symm.subset (List.mk_mem_enum_iff_getElem?.mpr hjw)
    have hjsplit : (j, w) ∈ (logits.enum.mergeSort fun a b => decide (b.2 ≤ a.2)).take k ++
        (logits.enum.mergeSort fun a b => decide (b.2 ≤ a.2)).drop k := by
      rw [List.take_append_drop]
      exact hjs
    rcases List.mem_append.mp hjsplit with h | h
    · exact absurd h hnot
    · exact hsplit p hpmem (j, w) h
  · have hv : ((topK logits k).map Prod.snd)[r]? = some p.2 := by
      rw [List.getElem?_map, hp, Option.map_some']
    have h2 : (sample_from e k logits r).2 =
        (softmaxWith e ((topK logits k).map Prod.snd)).getD r 0 := rfl
    rw [h2, hpD, softmaxWith, List.getD_eq_getElem?_getD, List.getElem?_map, hv,
      Option.map_some', Option.getD_some]

/-- Concrete instance of `sample_from_top_k` at `logits = [1, 5, 3, 2]`,
`k = 2`, draw `r = 0`, with the identity standing in for the weighting
function: the chosen token is in the top-2 set and its probability is the
renormalized weight. -/
theorem sample_from_top_k_witness :
    ((sample_from id 2 [1, 5, 3, 2] 0).1, ((topK [1, 5, 3, 2] 2).getD 0 (0, 0)).2) ∈ topK [1, 5, 3, 2] 2 ∧
    (sample_from id 2 [1, 5, 3, 2] 0).2 =
      id (((topK [1, 5, 3, 2] 2).getD 0 (0, 0)).2) /
        (((topK [1, 5, 3, 2] 2).map Prod.snd).map id).sum :=
  ⟨(sample_from_top_k id [1, 5, 3, 2] 2 0 (by decide) (by decide)).1,
   (sample_from_top_k id [1, 5, 3, 2] 2 0 (by decide) (by decide)).2.2.2⟩

/-- A dense layer's output width is the width of its bias vector. -/
theorem denseRow_length (W : List (List ℚ)) (b x : List ℚ) :
    (denseRow W b x).length = b.length := by
  rw [denseRow, List.length_map, List.length_range]

/-- The feed-forward sublayer's output width is the second bias width. -/
theorem ffnRow_length (W1 : List (List ℚ)) (b1 : List ℚ) (W2 : List (List ℚ))
    (b2 x : List ℚ) : (ffnRow W1 b1 W2 b2 x).length = b2.length := by
  rw [ffnRow, denseRow_length]

/-- Adding two matrices of the same shape preserves the shape. -/
theorem matShape_add (m m' : List (List ℚ)) (s d : Nat)
    (hm : MatShape m s d) (hm' : MatShape m' s d) :
    MatShape (List.zipWith vecAdd m m') s d := by
  obtain ⟨hl, hv⟩ := hm
  obtain ⟨hl', hv'⟩ := hm'
  constructor
  · rw [List.length_zipWith, hl, hl', Nat.min_self]
  · intro v hvmem
    obtain ⟨i, hi⟩ := List.mem_iff_getElem?.mp hvmem
    obtain ⟨a, b, h1, h2, rfl⟩ := List.getElem?_zipWith_eq_some.mp hi
    rw [vecAdd, List.length_zipWith, hv a (List.getElem?_mem h1),
      hv' b (List.getElem?_mem h2), Nat.min_self]

/-- Adding two tensors of the same shape preserves the shape. -/
theorem hasShape_tensorAdd (a a' : List (List (List ℚ))) (bt s d : Nat)
    (h : HasShape a bt s d) (h' : HasShape a' bt s d) :
    HasShape (tensorAdd a a') bt s d := by
  obtain ⟨hl, hm⟩ := h
  obtain ⟨hl', hm'⟩ := h'
  constructor
  · rw [tensorAdd, List.length_zipWith, hl, hl', Nat.min_self]
  · intro m hmmem
    rw [tensorAdd] at hmmem
    obtain ⟨i, hi⟩ := List.mem_iff_getElem?.mp hmmem
    obtain ⟨ma, mb, h1, h2, rfl⟩ := List.getElem?_zipWith_eq_some.mp hi
    exact matShape_add _ _ _ _ (hm ma (List.getElem?_mem h1)) (hm' mb (List.getElem?_mem h2))

/-- Mapping a per-position function of fixed output width `d2` over a
tensor yields a tensor of the same batch and sequence dimensions with
feature dimension `d2`. -/
theorem hasShape_mapRows (f : List ℚ → List ℚ) (t : List (List (List ℚ)))
    (bt s d d2 : Nat) (hf : ∀ v : List ℚ, v.length = d → (f v).length = d2)
    (h : HasShape t bt s d) : HasShape (mapRows f t) bt s d2 := by
  obtain ⟨hl, hm⟩ := h
  constructor
  · rw [mapRows, List.length_map, hl]
  · intro m hmem
    rw [mapRows] at hmem
    obtain ⟨m0, hm0, rfl⟩ := List.mem_map.mp hmem
    obtain ⟨hm0l, hm0v⟩ := hm m0 hm0
    constructor
    · rw [List.length_map, hm0l]
    · intro v hv
      obtain ⟨v0, hv0, rfl⟩ := List.mem_map.mp hv
      exact hf v0 (hm0v v0 hv0)

/-- Claim C5: under the framework contracts — attention and the two
dropout layers preserve `(batch, seq, embed_dim)` shape, the two
independent layer normalizations preserve each position vector's length,
the feed-forward biases have widths `ff_dim` and `embed_dim` — the
transformer block (attention → dropout → residual add → first layer norm
→ feed-forward → dropout → residual add → second layer norm, as laid out
in `transformerBlockCall`) maps every input of shape
`(batch, seq, embed_dim)` to an output of the same shape. -/
theorem transformerBlock_shape
    (att dropout1 dropout2 : List (List (List ℚ)) → List (List (List ℚ)))
    (ln1 ln2 : List ℚ → List ℚ)
    (W1 : List (List ℚ)) (b1 : List ℚ) (W2 : List (List ℚ)) (b2 : List ℚ)
    (inputs : List (List (List ℚ))) (batch seq embed_dim ff_dim : Nat)
    (hin : HasShape inputs batch seq embed_dim)
    (hatt : ∀ t, HasShape t batch seq embed_dim → HasShape (att t) batch seq embed_dim)
    (hd1 : ∀ t, HasShape t batch seq embed_dim → HasShape (dropout1 t) batch seq embed_dim)
    (hd2 : ∀ t, HasShape t batch seq embed_dim → HasShape (dropout2 t) batch seq embed_dim)
    (hln1 : ∀ v : List ℚ, (ln1 v).length = v.length)
    (hln2 : ∀ v : List ℚ, (ln2 v).length = v.length)
    (hb1 : b1.length = ff_dim)
    (hb2 : b2.length = embed_dim) :
    HasShape (transformerBlockCall att dropout1 dropout2 ln1 ln2 W1 b1 W2 b2 inputs)
      batch seq embed_dim := by
  have hattn := hd1 _ (hatt _ hin)
  have hout1 : HasShape (mapRows ln1 (tensorAdd inputs (dropout1 (att inputs))))
      batch seq embed_dim :=
    hasShape_mapRows _ _ _ _ _ _ (fun v hv => by rw [hln1 v, hv])
      (hasShape_tensorAdd _ _ _ _ _ hin hattn)
  have hffn : HasShape (mapRows (ffnRow W1 b1 W2 b2)
      (mapRows ln1 (tensorAdd inputs (dropout1 (att inputs))))) batch seq embed_dim :=
    hasShape_mapRows _ _ _ _ _ _ (fun v _ => (ffnRow_length W1 b1 W2 b2 v).trans hb2) hout1
  have hffnd := hd2 _ hffn
  have hsum2 := hasShape_tensorAdd _ _ _ _ _ hout1 hffnd
  exact hasShape_mapRows _ _ _ _ _ _ (fun v hv => by rw [hln2 v, hv]) hsum2

/-- Concrete instance of `transformerBlock_shape` with identity
sublayers, `1 × 1` weights and a `(1, 1, 1)` input tensor. -/
theorem transformerBlock_shape_witness :
    HasShape (transformerBlockCall id id id id id [[1]] [0] [[1]] [0] [[[3]]]) 1 1 1 :=
  transformerBlock_shape id id id id id [[1]] [0] [[1]] [0] [[[3]]] 1 1 1 1
    (by constructor <;> simp [MatShape])
    (fun _ h => h) (fun _ h => h) (fun _ h => h)
    (fun _ => rfl) (fun _ => rfl) rfl rfl
